import Mathlib

/-!
Shallow embedding of `compiler/src/iree/compiler/Codegen/Dialect/LoweringConfig.cpp`:
the IREE codegen configuration attributes (`TranslationInfoAttr`, `LoweringConfigAttr`,
`CompilationInfoAttr`), the integer-array attribute codec, and the
distribution-consistency resolver `getDistributionTileConfigFromLoweringConfig`.

MLIR attributes are modelled as an inductive `Attr` value type: `IntegerAttr`
becomes `Attr.int` (carrying the sign-extended 64-bit value the `APInt` stores),
`ArrayAttr` becomes `Attr.arr`, and every other attribute kind collapses to
`Attr.other`.  A nullable `ArrayAttr` field is an `Option (List Attr)`.
`Operation *` compute nodes are modelled by `ComputeOp`, carrying the result of
the `PartitionableLoopsInterface` query (`none` when the op does not implement
the interface) and the optional `lowering_config` attribute.
-/

/-- Model of an MLIR attribute as used by this file: an integer attribute
(64-bit, sign-extended value), an array attribute, or any other kind. -/
inductive Attr where
  | int (value : Int)
  | arr (elems : List Attr)
  | other

/-- Model of `attr.isa<IntegerAttr>()`. -/
def Attr.isInt : Attr → Bool
  | .int _ => true
  | _ => false

/-- Model of `attr.cast<IntegerAttr>().getInt()`.  The C++ cast is unchecked;
on a non-integer attribute its behaviour is undefined, modelled here as `0`. -/
def Attr.getInt : Attr → Int
  | .int v => v
  | _ => 0

/-- Model of `attr.dyn_cast<ArrayAttr>()`: `some` exactly on array attributes. -/
def Attr.dynCastArrayAttr : Attr → Option (List Attr)
  | .arr l => some l
  | _ => none

/-- Model of the unchecked `attr.cast<ArrayAttr>()`; undefined behaviour on a
non-array attribute is modelled as the empty array. -/
def Attr.asArrayAttr : Attr → List Attr
  | .arr l => l
  | _ => []

/-- Truncation of an integer to 64 bits followed by sign extension: the value
actually stored by `IntegerAttr::get(i64, APInt(64, value))` and read back by
`getInt()`.  On every value already in `[-2^63, 2^63)` this is the identity. -/
def toI64 (v : Int) : Int := (v + 2 ^ 63) % 2 ^ 64 - 2 ^ 63

/-- `checkIntegerArrayAttr` (LoweringConfig.cpp:30): every element of the array
attribute is an `IntegerAttr`. -/
def checkIntegerArrayAttr (arrayAttr : List Attr) : Bool :=
  !arrayAttr.any (fun attr => !attr.isInt)

/-- `getI64IntegerArrayAttr` (LoweringConfig.cpp:48): encode a sequence of
64-bit integers as an `ArrayAttr` of 64-bit `IntegerAttr`s. -/
def getI64IntegerArrayAttr (values : List Int) : List Attr :=
  values.map (fun value => Attr.int (toI64 value))

/-- `getIntegerVals` (LoweringConfig.cpp:60): decode an `ArrayAttr` of
`IntegerAttr`s into the integer values; a null attribute decodes to `[]`. -/
def getIntegerVals (arrayAttr : Option (List Attr)) : List Int :=
  match arrayAttr with
  | none => []
  | some l => l.map Attr.getInt

/-!
The `DispatchLoweringPassPipeline` enumeration is declared in TableGen
(`LoweringConfig.td`), outside the excerpt.  Kind values are modelled as
naturals.
-/

/-- Modelled from the spec: the missing TableGen declaration of the
`DispatchLoweringPassPipeline` enumeration.  The spec says the kinds are a
finite, totally ordered, contiguously numbered set whose highest member is
`None`; this constant is the numeric value of `None`.  Its exact value does not
matter for any theorem below. -/
def DispatchLoweringPassPipeline_None : Nat := 13

/-- Modelled from the spec: the enumerated set of known pipeline kinds, i.e.
all values from the first kind (0) up to and including `None`. -/
def knownPipelineKinds : List Nat := List.range (DispatchLoweringPassPipeline_None + 1)

/-- The `iree_codegen.translation_info` attribute: a nullable pipeline-kind
attribute and a nullable workload-per-workgroup `ArrayAttr`. -/
structure TranslationInfoAttr where
  passPipeline : Option Nat
  workloadPerWorkgroup : Option (List Attr)

/-- `TranslationInfoAttr::get` (LoweringConfig.cpp:76): builds the attribute,
encoding `workloadPerWorkgroup` as a (present, possibly empty) integer array. -/
def TranslationInfoAttr.get (passPipeline : Nat) (workloadPerWorkgroup : List Int) :
    TranslationInfoAttr :=
  { passPipeline := some passPipeline,
    workloadPerWorkgroup := some (getI64IntegerArrayAttr workloadPerWorkgroup) }

/-- `TranslationInfoAttr::getWorkloadPerWorkgroupVals` (LoweringConfig.cpp:91). -/
def TranslationInfoAttr.getWorkloadPerWorkgroupVals (t : TranslationInfoAttr) : List Int :=
  getIntegerVals t.workloadPerWorkgroup

/-- The validation errors diagnosed in this file, one constructor per distinct
`emitError` message (plus the resolver's error, which carries the op the
diagnostic is attached to). -/
inductive VerifyError where
  | missingPipeline
  | invalidEnumValue
  | missingTileSizes
  | malformedTileSizes
  | malformedInterchange
  | malformedVectorSize
  | missingLoweringConfig
  | missingTranslationInfo
  | malformedWorkgroupSize

/-- `TranslationInfoAttr::verify` (LoweringConfig.cpp:95): missing pipeline is
an error; a pipeline value greater than `None` is an invalid enum value. -/
def TranslationInfoAttr.verify (passPipeline : Option Nat)
    (workloadPerWorkgroup : Option (List Attr)) : Except VerifyError Unit :=
  match passPipeline with
  | none => .error .missingPipeline
  | some passPipelineValue =>
      if DispatchLoweringPassPipeline_None < passPipelineValue then
        .error .invalidEnumValue
      else
        .ok ()

/-- The `iree_codegen.lowering_config` attribute: three nullable `ArrayAttr`
fields.  `tileSizes` and `tileInterchange` hold one array per nesting level;
`nativeVectorSize` is flat. -/
structure LoweringConfigAttr where
  tileSizes : Option (List Attr)
  tileInterchange : Option (List Attr)
  nativeVectorSize : Option (List Attr)

/-- `LoweringConfigAttr::get` (LoweringConfig.cpp:114): encodes every level of
`tileSizes` and `tileInterchange`, and `nativeVectorSize`, as present (possibly
empty) arrays. -/
def LoweringConfigAttr.get (tileSizes tileInterchange : List (List Int))
    (nativeVectorSize : List Int) : LoweringConfigAttr :=
  let attrList := fun (lst : List (List Int)) =>
    lst.map (fun sizes => Attr.arr (getI64IntegerArrayAttr sizes))
  { tileSizes := some (attrList tileSizes),
    tileInterchange := some (attrList tileInterchange),
    nativeVectorSize := some (getI64IntegerArrayAttr nativeVectorSize) }

/-- `LoweringConfigAttr::getTileSizeVals(level)` (LoweringConfig.cpp:143):
empty when the field is absent or `level` is out of range, otherwise the
decoded level entry. -/
def LoweringConfigAttr.getTileSizeVals (c : LoweringConfigAttr) (level : Nat) : List Int :=
  match c.tileSizes with
  | none => []
  | some tileSizesAttr =>
      if tileSizesAttr.length ≤ level then []
      else getIntegerVals (some ((tileSizesAttr.getD level Attr.other).asArrayAttr))

/-- `LoweringConfigAttr::getTileInterchangeVals(level)` (LoweringConfig.cpp:149). -/
def LoweringConfigAttr.getTileInterchangeVals (c : LoweringConfigAttr) (level : Nat) :
    List Int :=
  match c.tileInterchange with
  | none => []
  | some tileInterchangeAttr =>
      if tileInterchangeAttr.length ≤ level then []
      else getIntegerVals (some ((tileInterchangeAttr.getD level Attr.other).asArrayAttr))

/-- `LoweringConfigAttr::getNativeVectorSizeVals` (LoweringConfig.cpp:156). -/
def LoweringConfigAttr.getNativeVectorSizeVals (c : LoweringConfigAttr) : List Int :=
  getIntegerVals c.nativeVectorSize

/-- Helper inside `LoweringConfigAttr::verify` (LoweringConfig.cpp:169): some
element of the array is not itself an array of integers. -/
def hasNonIntElems (sizes : List Attr) : Bool :=
  sizes.any (fun attr =>
    match attr.dynCastArrayAttr with
    | none => true
    | some arrayAttr => !checkIntegerArrayAttr arrayAttr)

/-- `LoweringConfigAttr::verify` (LoweringConfig.cpp:162). -/
def LoweringConfigAttr.verify (tileSizes tileInterchange nativeVectorSize : Option (List Attr)) :
    Except VerifyError Unit :=
  match tileSizes with
  | none => .error .missingTileSizes
  | some tileSizesAttr =>
      if hasNonIntElems tileSizesAttr then .error .malformedTileSizes
      else if (match tileInterchange with
               | some tileInterchangeAttr => hasNonIntElems tileInterchangeAttr
               | none => false) then .error .malformedInterchange
      else if (match nativeVectorSize with
               | some nativeVectorSizeAttr => !checkIntegerArrayAttr nativeVectorSizeAttr
               | none => false) then .error .malformedVectorSize
      else .ok ()

/-- The `iree.compilation_info` attribute (LoweringConfig.cpp:197). -/
structure CompilationInfoAttr where
  loweringConfig : Option LoweringConfigAttr
  translationInfo : Option TranslationInfoAttr
  workgroupSize : Option (List Attr)

/-- First `CompilationInfoAttr::get` overload (LoweringConfig.cpp:197): tiling
and vectorization only, pipeline implicitly `None` with empty workload. -/
def CompilationInfoAttr.getDefaultPipeline (tileSizes interchange : List (List Int))
    (nativeVectorSize workgroupSize : List Int) : CompilationInfoAttr :=
  { loweringConfig := some (LoweringConfigAttr.get tileSizes interchange nativeVectorSize),
    translationInfo := some (TranslationInfoAttr.get DispatchLoweringPassPipeline_None []),
    workgroupSize := some (getI64IntegerArrayAttr workgroupSize) }

/-- Second `CompilationInfoAttr::get` overload (LoweringConfig.cpp:210): full
specification including pipeline and workload hint. -/
def CompilationInfoAttr.getFull (tileSizes interchange : List (List Int))
    (nativeVectorSize : List Int) (passPipeline : Nat)
    (workloadPerWorkgroup workgroupSize : List Int) : CompilationInfoAttr :=
  { loweringConfig := some (LoweringConfigAttr.get tileSizes interchange nativeVectorSize),
    translationInfo := some (TranslationInfoAttr.get passPipeline workloadPerWorkgroup),
    workgroupSize := some (getI64IntegerArrayAttr workgroupSize) }

/-- Third `CompilationInfoAttr::get` overload (LoweringConfig.cpp:223): direct
composition from already-built sub-attributes. -/
def CompilationInfoAttr.getFromParts (configAttr : LoweringConfigAttr)
    (translationInfo : TranslationInfoAttr) (workgroupSize : List Int) :
    CompilationInfoAttr :=
  { loweringConfig := some configAttr,
    translationInfo := some translationInfo,
    workgroupSize := some (getI64IntegerArrayAttr workgroupSize) }

/-- `CompilationInfoAttr::verify` (LoweringConfig.cpp:230). -/
def CompilationInfoAttr.verify (loweringConfig : Option LoweringConfigAttr)
    (translationInfo : Option TranslationInfoAttr) (workgroupSize : Option (List Attr)) :
    Except VerifyError Unit :=
  match loweringConfig with
  | none => .error .missingLoweringConfig
  | some cfg =>
      match LoweringConfigAttr.verify cfg.tileSizes cfg.tileInterchange cfg.nativeVectorSize with
      | .error e => .error e
      | .ok () =>
          match translationInfo with
          | none => .error .missingTranslationInfo
          | some t =>
              match TranslationInfoAttr.verify t.passPipeline t.workloadPerWorkgroup with
              | .error e => .error e
              | .ok () =>
                  if (match workgroupSize with
                      | some workgroupSizeAttr => !checkIntegerArrayAttr workgroupSizeAttr
                      | none => false) then .error .malformedWorkgroupSize
                  else .ok ()

/-- `CompilationInfoAttr::getWorkgroupSizeVals` (LoweringConfig.cpp:259). -/
def CompilationInfoAttr.getWorkgroupSizeVals (c : CompilationInfoAttr) : List Int :=
  getIntegerVals c.workgroupSize

/-!
The distribution-consistency resolver
`getDistributionTileConfigFromLoweringConfig` (LoweringConfig.cpp:368).
-/

/-- A compute node of a dispatch, as the resolver sees it:
`partitionableLoops` is the result of the injected
`PartitionableLoopsInterface::getPartitionableLoops(kNumMaxParallelDims)` query
(`none` when the op does not implement the interface), and `loweringConfig`
is the op's optional `lowering_config` attribute. -/
structure ComputeOp where
  partitionableLoops : Option (List Nat)
  loweringConfig : Option LoweringConfigAttr

/-- The resolver's only error: `"inconsistent distribution of ops for first
level of distribution"`, carrying the op the diagnostic is emitted on
(`computeOps.front()`). -/
inductive ResolveError where
  | inconsistentDistribution (anchor : ComputeOp)

/-- The loop at LoweringConfig.cpp:394: for each partitionable `loopID` with a
corresponding level-0 tile-size entry, write that entry at index `loopID`. -/
def distTilesFill (tileSizes : List Int) : List Nat → List Int → List Int
  | [], acc => acc
  | loopID :: rest, acc =>
      distTilesFill tileSizes rest
        (if loopID < tileSizes.length then acc.set loopID (tileSizes.getD loopID 0) else acc)

/-- The per-node array `currDistributedTileSizes` (LoweringConfig.cpp:390):
resized to `partitionableLoops.back() + 1` zeros when the loop list is
nonempty, then filled by `distTilesFill`. -/
def perNodeDistributedTileSizes (partitionableLoops : List Nat) (tileSizes : List Int) :
    List Int :=
  distTilesFill tileSizes partitionableLoops
    (if partitionableLoops.isEmpty then []
     else List.replicate (partitionableLoops.getLastD 0 + 1) 0)

/-- The per-node `(currDistributedTileSizes, currInterchange)` pair of a node
that passes both skip tests (LoweringConfig.cpp:377-398); `none` for a node
skipped for lacking the interface or the config. -/
def contribPair (op : ComputeOp) : Option (List Int × List Int) :=
  match op.partitionableLoops, op.loweringConfig with
  | some partitionableLoops, some currLoweringConfig =>
      some (perNodeDistributedTileSizes partitionableLoops
              (currLoweringConfig.getTileSizeVals 0),
            currLoweringConfig.getTileInterchangeVals 0)
  | _, _ => none

/-- The resolver's scan loop (LoweringConfig.cpp:376-408), carrying the
accumulated `(distributedTileSizes, interchange)` state and the error anchor
`computeOps.front()`.  The adopt test is on emptiness of the accumulated
tile-size vector, exactly as in the source. -/
def resolveGo (anchor : ComputeOp) :
    List ComputeOp → List Int → List Int → Except ResolveError (List Int × List Int)
  | [], distributedTileSizes, interchange => .ok (distributedTileSizes, interchange)
  | op :: rest, distributedTileSizes, interchange =>
      match contribPair op with
      | none => resolveGo anchor rest distributedTileSizes interchange
      | some (currDistributedTileSizes, currInterchange) =>
          if distributedTileSizes.isEmpty then
            resolveGo anchor rest currDistributedTileSizes currInterchange
          else if currDistributedTileSizes ≠ distributedTileSizes ∨
                  currInterchange ≠ interchange then
            .error (.inconsistentDistribution anchor)
          else
            resolveGo anchor rest distributedTileSizes interchange

/-- `getDistributionTileConfigFromLoweringConfig` (LoweringConfig.cpp:368):
clears the outputs, returns success on an empty node list, and otherwise scans
the nodes with the first node as error anchor. -/
def getDistributionTileConfigFromLoweringConfig (computeOps : List ComputeOp) :
    Except ResolveError (List Int × List Int) :=
  match computeOps with
  | [] => .ok ([], [])
  | first :: _ => resolveGo first computeOps [] []

/-- The resolver's outcome with the error's diagnostic payload erased: which
plan is returned, or that it failed. -/
def resolveOutcome (computeOps : List ComputeOp) : Except Unit (List Int × List Int) :=
  (getDistributionTileConfigFromLoweringConfig computeOps).mapError (fun _ => ())

/-!
Helper lemmas about the resolver's scan.
-/

/-- The sequence of per-node `(currDistributedTileSizes, currInterchange)`
pairs of the contributing (non-skipped) nodes, in input order. -/
def contribs (l : List ComputeOp) : List (List Int × List Int) :=
  l.filterMap contribPair

theorem contribs_nil : contribs [] = [] := rfl

theorem contribs_cons_none {op : ComputeOp} (l : List ComputeOp)
    (h : contribPair op = none) : contribs (op :: l) = contribs l := by
  simp [contribs, List.filterMap_cons, h]

theorem contribs_cons_some {op : ComputeOp} {q : List Int × List Int} (l : List ComputeOp)
    (h : contribPair op = some q) : contribs (op :: l) = q :: contribs l := by
  simp [contribs, List.filterMap_cons, h]

/-- Once the accumulated tile-size vector is nonempty, any contributing node
whose pair differs from the accumulated pair makes the scan fail, anchored at
the anchor node. -/
theorem resolveGo_error_of_mismatch (anchor : ComputeOp) (l : List ComputeOp) :
    ∀ (dist inter : List Int) (p : List Int × List Int),
      dist ≠ [] → p ∈ contribs l → p ≠ (dist, inter) →
      resolveGo anchor l dist inter = .error (.inconsistentDistribution anchor) := by
  induction l with
  | nil =>
      intro dist inter p _ hp _
      simp [contribs] at hp
  | cons op rest ih =>
      intro dist inter p hdist hp hne
      cases hc : contribPair op with
      | none =>
          rw [contribs_cons_none rest hc] at hp
          simpa [resolveGo, hc] using ih dist inter p hdist hp hne
      | some q =>
          obtain ⟨qd, qi⟩ := q
          have hemp : dist.isEmpty = false := by
            cases dist with
            | nil => exact absurd rfl hdist
            | cons a t => rfl
          rw [contribs_cons_some rest hc] at hp
          by_cases hq : (qd, qi) = (dist, inter)
          · have hqd : qd = dist := congrArg Prod.fst hq
            have hqi : qi = inter := congrArg Prod.snd hq
            have hp' : p ∈ contribs rest := by
              rcases List.mem_cons.mp hp with h | h
              · exact absurd (h.trans hq) hne
              · exact h
            simp only [resolveGo, hc, hemp, hqd, hqi]
            simpa using ih dist inter p hdist hp' hne
          · have hor : qd ≠ dist ∨ qi ≠ inter := by
              by_contra hcon
              push_neg at hcon
              exact hq (by rw [hcon.1, hcon.2])
            simp [resolveGo, hc, hemp, hor]

/-- If every contributing pair equals the accumulated pair, the scan succeeds
with that pair (in particular regardless of whether the accumulated tile-size
vector is empty). -/
theorem resolveGo_ok_of_all_eq (anchor : ComputeOp) (l : List ComputeOp) :
    ∀ (dist inter : List Int),
      (∀ p ∈ contribs l, p = (dist, inter)) →
      resolveGo anchor l dist inter = .ok (dist, inter) := by
  induction l with
  | nil => intro dist inter _; rfl
  | cons op rest ih =>
      intro dist inter hall
      cases hc : contribPair op with
      | none =>
          rw [contribs_cons_none rest hc] at hall
          simpa [resolveGo, hc] using ih dist inter hall
      | some q =>
          obtain ⟨qd, qi⟩ := q
          rw [contribs_cons_some rest hc] at hall
          have hq : (qd, qi) = (dist, inter) := hall _ (List.mem_cons_self _ _)
          have hqd : qd = dist := congrArg Prod.fst hq
          have hqi : qi = inter := congrArg Prod.snd hq
          have hrest : ∀ p ∈ contribs rest, p = (dist, inter) := by
            intro p hp
            exact hall p (List.mem_cons_of_mem _ hp)
          cases hemp : dist.isEmpty with
          | true =>
              simp only [resolveGo, hc, hqd, hqi, hemp]
              simpa using ih dist inter hrest
          | false =>
              simp only [resolveGo, hc, hemp, hqd, hqi]
              simpa using ih dist inter hrest

/-- If all contributing pairs of the list agree pairwise, the scan from the
empty accumulated state succeeds. -/
theorem resolveGo_ok_of_pairwise (anchor : ComputeOp) (l : List ComputeOp) :
    ∀ (inter : List Int),
      (∀ p ∈ contribs l, ∀ q ∈ contribs l, p = q) →
      ∃ res, resolveGo anchor l [] inter = .ok res := by
  induction l with
  | nil => intro inter _; exact ⟨([], inter), rfl⟩
  | cons op rest ih =>
      intro inter hall
      cases hc : contribPair op with
      | none =>
          have hall' : ∀ p ∈ contribs rest, ∀ q ∈ contribs rest, p = q := by
            rw [contribs_cons_none rest hc] at hall
            exact hall
          obtain ⟨res, hres⟩ := ih inter hall'
          exact ⟨res, by simpa [resolveGo, hc] using hres⟩
      | some q =>
          obtain ⟨qd, qi⟩ := q
          rw [contribs_cons_some rest hc] at hall
          have hrest : ∀ p ∈ contribs rest, p = (qd, qi) := by
            intro p hp
            exact hall p (List.mem_cons_of_mem _ hp) (qd, qi) (List.mem_cons_self _ _)
          refine ⟨(qd, qi), ?_⟩
          simp only [resolveGo, hc, List.isEmpty_nil, if_true]
          exact resolveGo_ok_of_all_eq anchor rest qd qi hrest

/-- If every contributing pair has a nonempty tile-size array and two
contributing pairs differ, the scan from the empty accumulated state fails,
anchored at the anchor node. -/
theorem resolveGo_error_of_two_distinct (anchor : ComputeOp) (l : List ComputeOp) :
    ∀ (inter : List Int),
      (∀ p ∈ contribs l, p.1 ≠ []) →
      ∀ p q, p ∈ contribs l → q ∈ contribs l → p ≠ q →
      resolveGo anchor l [] inter = .error (.inconsistentDistribution anchor) := by
  induction l with
  | nil =>
      intro inter _ p q hp _ _
      simp [contribs] at hp
  | cons op rest ih =>
      intro inter hne p q hp hq hpq
      cases hc : contribPair op with
      | none =>
          rw [contribs_cons_none rest hc] at hne hp hq
          simpa [resolveGo, hc] using ih inter hne p q hp hq hpq
      | some r =>
          obtain ⟨rd, ri⟩ := r
          rw [contribs_cons_some rest hc] at hne hp hq
          have hrd : rd ≠ [] := hne (rd, ri) (List.mem_cons_self _ _)
          simp only [resolveGo, hc, List.isEmpty_nil, if_true]
          by_cases hpr : p = (rd, ri)
          · have hq' : q ∈ contribs rest := by
              rcases List.mem_cons.mp hq with h | h
              · exact absurd (hpr.trans h.symm) hpq
              · exact h
            exact resolveGo_error_of_mismatch anchor rest rd ri q hrd hq'
              (fun h => hpq (hpr.trans h.symm))
          · have hp' : p ∈ contribs rest := by
              rcases List.mem_cons.mp hp with h | h
              · exact absurd h hpr
              · exact h
            exact resolveGo_error_of_mismatch anchor rest rd ri p hrd hp' hpr

/-!
Helper lemmas about the per-node distributed-tile-size array and the codec.
-/

theorem getD_set_int (l : List Int) (j : Nat) (v : Int) (i : Nat) :
    (l.set j v).getD i 0 = if j = i ∧ j < l.length then v else l.getD i 0 := by
  rw [List.getD_eq_getElem?_getD, List.getElem?_set]
  by_cases hj : j = i
  · subst hj
    by_cases hl : j < l.length
    · simp [hl]
    · simp [hl, List.getD_eq_getElem?_getD,
        List.getElem?_eq_none (Nat.le_of_not_lt hl)]
  · simp [hj, List.getD_eq_getElem?_getD]

theorem distTilesFill_length (ts : List Int) :
    ∀ (loops : List Nat) (acc : List Int),
      (distTilesFill ts loops acc).length = acc.length := by
  intro loops
  induction loops with
  | nil => intro acc; rfl
  | cons loopID rest ih =>
      intro acc
      simp only [distTilesFill]
      rw [ih]
      split <;> simp

theorem distTilesFill_getD (ts : List Int) :
    ∀ (loops : List Nat) (acc : List Int) (i : Nat), i < acc.length →
      (distTilesFill ts loops acc).getD i 0 =
        if i ∈ loops ∧ i < ts.length then ts.getD i 0 else acc.getD i 0 := by
  intro loops
  induction loops with
  | nil => intro acc i _; simp [distTilesFill]
  | cons loopID rest ih =>
      intro acc i hi
      simp only [distTilesFill]
      by_cases hl : loopID < ts.length
      · rw [if_pos hl, ih (acc.set loopID (ts.getD loopID 0)) i (by simpa using hi),
          getD_set_int]
        by_cases hmem : i ∈ rest ∧ i < ts.length
        · rw [if_pos hmem, if_pos ⟨List.mem_cons_of_mem _ hmem.1, hmem.2⟩]
        · rw [if_neg hmem]
          by_cases hid : loopID = i
          · subst hid
            rw [if_pos ⟨rfl, hi⟩, if_pos ⟨List.mem_cons_self _ _, hl⟩]
          · rw [if_neg (fun hc => hid hc.1),
              if_neg (fun hc =>
                hmem ⟨(List.mem_cons.mp hc.1).resolve_left (fun h => hid h.symm), hc.2⟩)]
      · rw [if_neg hl, ih acc i hi]
        by_cases hmem : i ∈ rest ∧ i < ts.length
        · rw [if_pos hmem, if_pos ⟨List.mem_cons_of_mem _ hmem.1, hmem.2⟩]
        · rw [if_neg hmem,
            if_neg (fun hc => by
              rcases List.mem_cons.mp hc.1 with h | h
              · exact hl (h ▸ hc.2)
              · exact hmem ⟨h, hc.2⟩)]

theorem perNodeDistributedTileSizes_length (loops : List Nat) (ts : List Int)
    (h : loops ≠ []) :
    (perNodeDistributedTileSizes loops ts).length = loops.getLastD 0 + 1 := by
  have hne : loops.isEmpty = false := by
    cases loops with
    | nil => exact absurd rfl h
    | cons a t => rfl
  unfold perNodeDistributedTileSizes
  rw [distTilesFill_length, hne]
  simp

theorem perNodeDistributedTileSizes_getD (loops : List Nat) (ts : List Int)
    (h : loops ≠ []) (i : Nat) (hi : i ≤ loops.getLastD 0) :
    (perNodeDistributedTileSizes loops ts).getD i 0 =
      if i ∈ loops ∧ i < ts.length then ts.getD i 0 else 0 := by
  have hne : loops.isEmpty = false := by
    cases loops with
    | nil => exact absurd rfl h
    | cons a t => rfl
  have hrep : ∀ j, (List.replicate (loops.getLastD 0 + 1) (0 : Int)).getD j 0 = 0 := by
    intro j
    rw [List.getD_eq_getElem?_getD, List.getElem?_replicate]
    split <;> rfl
  unfold perNodeDistributedTileSizes
  rw [hne]
  simp only [Bool.false_eq_true, if_false]
  rw [distTilesFill_getD ts loops _ i (by rw [List.length_replicate]; omega)]
  rw [hrep]

theorem getLastD_mem (loops : List Nat) (h : loops ≠ []) : loops.getLastD 0 ∈ loops := by
  rw [List.getLastD_eq_getLast?, List.getLast?_eq_getLast loops h]
  exact List.getLast_mem h

theorem toI64_eq_self (v : Int) (h1 : -(2 ^ 63) ≤ v) (h2 : v < 2 ^ 63) : toI64 v = v := by
  have e63 : (2 : Int) ^ 63 = 9223372036854775808 := by norm_num
  have e64 : (2 : Int) ^ 64 = 18446744073709551616 := by norm_num
  have h0 : 0 ≤ v + 2 ^ 63 := by omega
  have hlt : v + 2 ^ 63 < 2 ^ 64 := by omega
  unfold toI64
  rw [Int.emod_eq_of_lt h0 hlt]
  omega

theorem getIntegerVals_getI64 (s : List Int)
    (h : ∀ x ∈ s, -(2 ^ 63) ≤ x ∧ x < 2 ^ 63) :
    getIntegerVals (some (getI64IntegerArrayAttr s)) = s := by
  induction s with
  | nil => rfl
  | cons x xs ih =>
      have hx := h x (List.mem_cons_self _ _)
      have hxs := ih (fun y hy => h y (List.mem_cons_of_mem _ hy))
      simp only [getIntegerVals, getI64IntegerArrayAttr, List.map_cons] at hxs ⊢
      rw [show Attr.getInt (Attr.int (toI64 x)) = toI64 x from rfl,
        toI64_eq_self x hx.1 hx.2]
      exact congrArg (x :: ·) hxs

/-!
Bridges between the boolean well-formedness checks of the source and their
spec-level readings, used to settle the validation claims.
-/

/-- Spec-side reading of "a flat sequence of integers": an array attribute all
of whose elements are integer attributes. -/
def specFlatIntSeq : Attr → Prop
  | .arr elems => ∀ x ∈ elems, ∃ v, x = Attr.int v
  | _ => False

theorem Attr.isInt_eq_true_iff (a : Attr) : a.isInt = true ↔ ∃ v, a = Attr.int v := by
  cases a with
  | int v => exact ⟨fun _ => ⟨v, rfl⟩, fun _ => rfl⟩
  | arr es => exact ⟨fun h => Bool.noConfusion h, fun ⟨v, hv⟩ => Attr.noConfusion hv⟩
  | other => exact ⟨fun h => Bool.noConfusion h, fun ⟨v, hv⟩ => Attr.noConfusion hv⟩

theorem checkIntegerArrayAttr_eq_true_iff (l : List Attr) :
    checkIntegerArrayAttr l = true ↔ ∀ x ∈ l, ∃ v, x = Attr.int v := by
  unfold checkIntegerArrayAttr
  rw [Bool.not_eq_true', List.any_eq_false]
  constructor
  · intro h x hx
    have h2 := h x hx
    cases hh : x.isInt with
    | true => exact (Attr.isInt_eq_true_iff x).mp hh
    | false => exact absurd (by rw [hh]; rfl) h2
  · intro h x hx
    rw [(Attr.isInt_eq_true_iff x).mpr (h x hx)]
    simp

theorem checkIntegerArrayAttr_eq_false_iff (l : List Attr) :
    checkIntegerArrayAttr l = false ↔ ∃ x ∈ l, ∀ v, x ≠ Attr.int v := by
  rw [← Bool.not_eq_true, checkIntegerArrayAttr_eq_true_iff]
  constructor
  · intro h
    by_contra hcon
    push_neg at hcon
    exact h hcon
  · rintro ⟨x, hx, hne⟩ hall
    obtain ⟨v, hv⟩ := hall x hx
    exact hne v hv

theorem hasNonIntElems_eq_true_iff (l : List Attr) :
    hasNonIntElems l = true ↔ ∃ a ∈ l, ¬ specFlatIntSeq a := by
  unfold hasNonIntElems
  rw [List.any_eq_true]
  constructor
  · rintro ⟨a, ha, hfa⟩
    refine ⟨a, ha, ?_⟩
    cases a with
    | int v => simp [specFlatIntSeq]
    | other => simp [specFlatIntSeq]
    | arr es =>
        simp only [Attr.dynCastArrayAttr, Bool.not_eq_true'] at hfa
        simp only [specFlatIntSeq]
        rw [checkIntegerArrayAttr_eq_false_iff] at hfa
        obtain ⟨x, hx, hne⟩ := hfa
        intro hall
        obtain ⟨v, hv⟩ := hall x hx
        exact hne v hv
  · rintro ⟨a, ha, hna⟩
    refine ⟨a, ha, ?_⟩
    cases a with
    | int v => rfl
    | other => rfl
    | arr es =>
        simp only [Attr.dynCastArrayAttr, Bool.not_eq_true']
        rw [checkIntegerArrayAttr_eq_false_iff]
        simp only [specFlatIntSeq] at hna
        by_contra hcon
        push_neg at hcon
        exact hna hcon

/-!
Helper lemmas for the skip behaviour and the level-0 dependence of the
resolver.
-/

theorem contribPair_eq_none (op : ComputeOp)
    (h : op.partitionableLoops = none ∨ op.loweringConfig = none) :
    contribPair op = none := by
  unfold contribPair
  rcases h with h | h
  · rw [h]
  · rw [h]
    cases op.partitionableLoops <;> rfl

/-- The node attributes the resolver actually reads: the partitionable-loops
query result, the level-0 tile sizes and the level-0 interchange (the latter
two as `none` when the node has no `lowering_config`). -/
def agreeOn (op1 op2 : ComputeOp) : Prop :=
  op1.partitionableLoops = op2.partitionableLoops ∧
  op1.loweringConfig.map (fun c => c.getTileSizeVals 0)
    = op2.loweringConfig.map (fun c => c.getTileSizeVals 0) ∧
  op1.loweringConfig.map (fun c => c.getTileInterchangeVals 0)
    = op2.loweringConfig.map (fun c => c.getTileInterchangeVals 0)

theorem contribPair_congr (op1 op2 : ComputeOp) (h : agreeOn op1 op2) :
    contribPair op1 = contribPair op2 := by
  obtain ⟨h1, h2, h3⟩ := h
  unfold contribPair
  rw [← h1]
  cases hp : op1.partitionableLoops with
  | none => rfl
  | some loops =>
      cases hc1 : op1.loweringConfig with
      | none =>
          cases hc2 : op2.loweringConfig with
          | none => rfl
          | some c2 => rw [hc1, hc2] at h2; cases h2
      | some c1 =>
          cases hc2 : op2.loweringConfig with
          | none => rw [hc1, hc2] at h2; cases h2
          | some c2 =>
              rw [hc1, hc2] at h2 h3
              simp only [Option.map_some', Option.some.injEq] at h2 h3
              simp [h2, h3]

theorem resolveGo_outcome_congr (a1 a2 : ComputeOp) :
    ∀ (l1 l2 : List ComputeOp),
      List.Forall₂ (fun o1 o2 => contribPair o1 = contribPair o2) l1 l2 →
      ∀ (dist inter : List Int),
        (resolveGo a1 l1 dist inter).mapError (fun _ => ()) =
          (resolveGo a2 l2 dist inter).mapError (fun _ => ()) := by
  intro l1 l2 hf
  induction hf with
  | nil => intro dist inter; rfl
  | @cons o1 o2 t1 t2 h12 _ ih =>
      intro dist inter
      simp only [resolveGo, h12]
      cases hc : contribPair o2 with
      | none => exact ih dist inter
      | some q =>
          obtain ⟨qd, qi⟩ := q
          cases hemp : dist.isEmpty with
          | true =>
              simp only [hemp, if_true]
              exact ih qd qi
          | false =>
              simp only [hemp, Bool.false_eq_true, if_false]
              by_cases hne : qd ≠ dist ∨ qi ≠ inter
              · simp only [if_pos hne, Except.mapError]
              · simp only [if_neg hne]
                exact ih dist inter

/-!
The claims.
-/

/-- C1 (amended): during the scan, once an accumulator pair with a NONEMPTY
distributed-tile-size array has been adopted, any later contributing node
whose `(array, interchange)` pair differs from it in any element or in length
makes `resolve` fail with `InconsistentDistribution`, attributed to the first
node of the input sequence (the anchor), not to the mismatching node; in
particular, for `N1` with `tileSizes [[4,4]]` and `N2` with `tileSizes
[[4,8]]`, both with partitionable loops `{0,1}`, `resolve` fails anchored at
`N1`.  (The nonemptiness proviso is forced by the code: the adopt test is
`distributedTileSizes.empty()`, so an adopted pair whose array is empty is
silently re-adopted over instead of being compared.) -/
theorem claim1_mismatch_fails_anchored_at_first :
    (∀ (anchor : ComputeOp) (l : List ComputeOp) (dist inter : List Int)
       (p : List Int × List Int),
       dist ≠ [] → p ∈ contribs l → p ≠ (dist, inter) →
       resolveGo anchor l dist inter = .error (.inconsistentDistribution anchor)) ∧
    getDistributionTileConfigFromLoweringConfig
      [⟨some [0, 1], some (LoweringConfigAttr.get [[4, 4]] [] [])⟩,
       ⟨some [0, 1], some (LoweringConfigAttr.get [[4, 8]] [] [])⟩] =
      .error (.inconsistentDistribution
        ⟨some [0, 1], some (LoweringConfigAttr.get [[4, 4]] [] [])⟩) :=
  ⟨fun anchor l => resolveGo_error_of_mismatch anchor l, rfl⟩

/-- C1 witness: the general part of the claim applied at a concrete state. -/
theorem claim1_witness :
    resolveGo ⟨some [0, 1], some (LoweringConfigAttr.get [[4, 4]] [] [])⟩
      [⟨some [0, 1], some (LoweringConfigAttr.get [[4, 8]] [] [])⟩] [4, 4] [] =
      .error (.inconsistentDistribution
        ⟨some [0, 1], some (LoweringConfigAttr.get [[4, 4]] [] [])⟩) :=
  claim1_mismatch_fails_anchored_at_first.1 _ _ [4, 4] [] ([4, 8], [])
    (by decide) (by decide) (by decide)

/-- C1 counterexample to the claim as stated: node `A` (partitionable loops
`{}`, level-0 interchange `[3]`) is adopted with the pair `([], [3])`; node
`B`'s pair `([4], [])` differs from the adopted accumulator pair in both
components, yet `resolve [A, B]` succeeds — because the code re-adopts over an
adopted pair whose tile-size array is empty instead of comparing. -/
theorem claim1_counterexample :
    contribPair ⟨some [], some (LoweringConfigAttr.get [[]] [[3]] [])⟩ =
      some ([], [3]) ∧
    contribPair ⟨some [0], some (LoweringConfigAttr.get [[4]] [] [])⟩ =
      some ([4], []) ∧
    (([], [3]) : List Int × List Int) ≠ ([4], []) ∧
    getDistributionTileConfigFromLoweringConfig
      [⟨some [], some (LoweringConfigAttr.get [[]] [[3]] [])⟩,
       ⟨some [0], some (LoweringConfigAttr.get [[4]] [] [])⟩] = .ok ([4], []) :=
  ⟨rfl, rfl, by decide, rfl⟩

/-- C2: for a node with capability and config, the per-node distributed
tile-size array has length `max(partitionable loop id) + 1` (the loop list is
the ordered result of the capability query, so its last element — shown to be
a member and an upper bound under the hypothesis — is the max); index `i`
holds the level-0 tile size at `i` for every partitionable id `i` smaller than
the level-0 list's length and `0` everywhere else; consequently two identical
nodes with `tileSizes [[4,4]]` and loops `{0,1}` resolve to
`tileSizes=[4,4], interchange=[]` with no error. -/
theorem claim2_per_node_array_and_scenario_b :
    (∀ (loops : List Nat) (ts : List Int),
       loops ≠ [] → (∀ id ∈ loops, id ≤ loops.getLastD 0) →
       loops.getLastD 0 ∈ loops ∧
       (perNodeDistributedTileSizes loops ts).length = loops.getLastD 0 + 1 ∧
       (∀ i, i ≤ loops.getLastD 0 →
          (perNodeDistributedTileSizes loops ts).getD i 0 =
            if i ∈ loops ∧ i < ts.length then ts.getD i 0 else 0)) ∧
    getDistributionTileConfigFromLoweringConfig
      [⟨some [0, 1], some (LoweringConfigAttr.get [[4, 4]] [] [])⟩,
       ⟨some [0, 1], some (LoweringConfigAttr.get [[4, 4]] [] [])⟩] = .ok ([4, 4], []) :=
  ⟨fun loops ts h _hmax =>
     ⟨getLastD_mem loops h, perNodeDistributedTileSizes_length loops ts h,
      fun i hi => perNodeDistributedTileSizes_getD loops ts h i hi⟩,
   rfl⟩

/-- C2 witness: the general part of the claim applied at loops `[0, 1]` and
level-0 tile sizes `[4, 4]`. -/
theorem claim2_witness :
    (perNodeDistributedTileSizes [0, 1] [4, 4]).length = List.getLastD [0, 1] 0 + 1 :=
  (claim2_per_node_array_and_scenario_b.1 [0, 1] [4, 4] (by decide) (by decide)).2.1

/-- C3 (amended): for sequences in which every contributing node (capability
plus config) has a NONEMPTY per-node distributed-tile-size array, permuting a
sequence on which `resolve` fails with `InconsistentDistribution` still yields
`InconsistentDistribution`, anchored at whichever node is first in the
permuted sequence.  (The nonemptiness proviso is forced by the code: a node
whose per-node array is empty is adopted without comparison, so moving it
before or after the other nodes can turn a failure into a success — see the
counterexample.) -/
theorem claim3_permuted_disagreement_still_fails :
    ∀ (l1 l2 : List ComputeOp), List.Perm l1 l2 →
      (∀ op ∈ l1, ∀ pr : List Int × List Int, contribPair op = some pr → pr.1 ≠ []) →
      (∃ e, getDistributionTileConfigFromLoweringConfig l1 = .error e) →
      ∀ (a : ComputeOp) (t : List ComputeOp), l2 = a :: t →
        getDistributionTileConfigFromLoweringConfig l2 =
          .error (.inconsistentDistribution a) := by
  intro l1 l2 hperm hne hfail a t hl2
  obtain ⟨e, he⟩ := hfail
  have hl1ne : l1 ≠ [] := by
    intro h
    rw [h] at he
    simp [getDistributionTileConfigFromLoweringConfig] at he
  have hw : ∃ p, p ∈ contribs l1 ∧ ∃ q, q ∈ contribs l1 ∧ p ≠ q := by
    by_contra hcon
    push_neg at hcon
    obtain ⟨b, L, hbl⟩ := List.exists_cons_of_ne_nil hl1ne
    subst hbl
    obtain ⟨res, hres⟩ :=
      resolveGo_ok_of_pairwise b (b :: L) [] (fun p hp q hq => hcon p hp q hq)
    simp only [getDistributionTileConfigFromLoweringConfig] at he
    rw [hres] at he
    exact Except.noConfusion he
  obtain ⟨p, hp, q, hq, hpq⟩ := hw
  have hperm2 : List.Perm (contribs l1) (contribs l2) :=
    List.Perm.filterMap contribPair hperm
  have hp2 : p ∈ contribs l2 := hperm2.mem_iff.mp hp
  have hq2 : q ∈ contribs l2 := hperm2.mem_iff.mp hq
  have hne2 : ∀ r ∈ contribs l2, r.1 ≠ [] := by
    intro r hr
    have hr1 : r ∈ contribs l1 := hperm2.mem_iff.mpr hr
    obtain ⟨op, hop, hcp⟩ := List.mem_filterMap.mp hr1
    exact hne op hop r hcp
  subst hl2
  simp only [getDistributionTileConfigFromLoweringConfig]
  exact resolveGo_error_of_two_distinct a (a :: t) [] hne2 p q hp2 hq2 hpq

/-- C3 witness: two disagreeing nodes with nonempty per-node arrays; the
amended claim transports the failure across the swap, anchored at the new
first node. -/
theorem claim3_witness :
    getDistributionTileConfigFromLoweringConfig
      [⟨some [0], some (LoweringConfigAttr.get [[5]] [] [])⟩,
       ⟨some [0], some (LoweringConfigAttr.get [[4]] [] [])⟩] =
      .error (.inconsistentDistribution
        ⟨some [0], some (LoweringConfigAttr.get [[5]] [] [])⟩) :=
  claim3_permuted_disagreement_still_fails
    [⟨some [0], some (LoweringConfigAttr.get [[4]] [] [])⟩,
     ⟨some [0], some (LoweringConfigAttr.get [[5]] [] [])⟩]
    [⟨some [0], some (LoweringConfigAttr.get [[5]] [] [])⟩,
     ⟨some [0], some (LoweringConfigAttr.get [[4]] [] [])⟩]
    (List.Perm.swap (⟨some [0], some (LoweringConfigAttr.get [[5]] [] [])⟩ : ComputeOp)
      (⟨some [0], some (LoweringConfigAttr.get [[4]] [] [])⟩ : ComputeOp) [])
    (by
      intro op hop pr hpr
      rcases List.mem_cons.mp hop with h | h
      · subst h
        have h2 : some (([4], []) : List Int × List Int) = some pr := hpr
        injection h2 with h3
        rw [← h3]
        decide
      · rcases List.mem_cons.mp h with h4 | h4
        · subst h4
          have h2 : some (([5], []) : List Int × List Int) = some pr := hpr
          injection h2 with h3
          rw [← h3]
          decide
        · cases h4)
    ⟨.inconsistentDistribution ⟨some [0], some (LoweringConfigAttr.get [[4]] [] [])⟩, rfl⟩
    ⟨some [0], some (LoweringConfigAttr.get [[5]] [] [])⟩
    [⟨some [0], some (LoweringConfigAttr.get [[4]] [] [])⟩] rfl

/-- C3 counterexample to the claim as stated: `[B, A]` fails with
`InconsistentDistribution` (anchored at `B`), but its permutation `[A, B]`
succeeds: `A`'s empty per-node array is adopted and then silently re-adopted
over, so the disagreement vanishes. -/
theorem claim3_counterexample :
    List.Perm
      [⟨some [0], some (LoweringConfigAttr.get [[4]] [] [])⟩,
       (⟨some [], some (LoweringConfigAttr.get [[]] [] [])⟩ : ComputeOp)]
      [⟨some [], some (LoweringConfigAttr.get [[]] [] [])⟩,
       ⟨some [0], some (LoweringConfigAttr.get [[4]] [] [])⟩] ∧
    getDistributionTileConfigFromLoweringConfig
      [⟨some [0], some (LoweringConfigAttr.get [[4]] [] [])⟩,
       ⟨some [], some (LoweringConfigAttr.get [[]] [] [])⟩] =
      .error (.inconsistentDistribution
        ⟨some [0], some (LoweringConfigAttr.get [[4]] [] [])⟩) ∧
    getDistributionTileConfigFromLoweringConfig
      [⟨some [], some (LoweringConfigAttr.get [[]] [] [])⟩,
       ⟨some [0], some (LoweringConfigAttr.get [[4]] [] [])⟩] = .ok ([4], []) :=
  ⟨List.Perm.swap (⟨some [], some (LoweringConfigAttr.get [[]] [] [])⟩ : ComputeOp)
     (⟨some [0], some (LoweringConfigAttr.get [[4]] [] [])⟩ : ComputeOp) [],
   rfl, rfl⟩

/-- A result of this file's validators is either success or some error. -/
theorem exists_error_iff_ne_ok (r : Except VerifyError Unit) :
    (∃ e, r = .error e) ↔ r ≠ .ok () := by
  cases r with
  | ok u => cases u; simp
  | error e => simp

/-- Success characterization of `LoweringConfigAttr.verify`: the field checks
of LoweringConfig.cpp:162-190, read at the spec level. -/
theorem loweringConfig_verify_ok_iff (ts ti nv : Option (List Attr)) :
    LoweringConfigAttr.verify ts ti nv = .ok () ↔
      (∃ l, ts = some l) ∧
      (∀ l, ts = some l → ∀ a ∈ l, specFlatIntSeq a) ∧
      (∀ m, ti = some m → ∀ a ∈ m, specFlatIntSeq a) ∧
      (∀ n, nv = some n → ∀ x ∈ n, ∃ v, x = Attr.int v) := by
  cases ts with
  | none => simp [LoweringConfigAttr.verify]
  | some l =>
      simp only [LoweringConfigAttr.verify]
      by_cases h1 : hasNonIntElems l = true
      · rw [if_pos h1]
        constructor
        · intro h; exact absurd h (by simp)
        · rintro ⟨_, hall, _, _⟩
          obtain ⟨a, ha, hna⟩ := (hasNonIntElems_eq_true_iff l).mp h1
          exact absurd (hall l rfl a ha) hna
      · have h1f : hasNonIntElems l = false := by
          cases hh : hasNonIntElems l
          · rfl
          · exact absurd hh h1
        rw [if_neg h1]
        by_cases h2 : (match ti with
                       | some m => hasNonIntElems m
                       | none => false) = true
        · rw [if_pos h2]
          constructor
          · intro h; exact absurd h (by simp)
          · rintro ⟨_, _, hti, _⟩
            cases ti with
            | none => exact absurd h2 (by simp)
            | some m =>
                have h2m : hasNonIntElems m = true := h2
                obtain ⟨a, ha, hna⟩ := (hasNonIntElems_eq_true_iff m).mp h2m
                exact absurd (hti m rfl a ha) hna
        · rw [if_neg h2]
          by_cases h3 : (match nv with
                         | some n => !checkIntegerArrayAttr n
                         | none => false) = true
          · rw [if_pos h3]
            constructor
            · intro h; exact absurd h (by simp)
            · rintro ⟨_, _, _, hnv⟩
              cases nv with
              | none => exact absurd h3 (by simp)
              | some n =>
                  have h3n : (!checkIntegerArrayAttr n) = true := h3
                  rw [Bool.not_eq_true'] at h3n
                  obtain ⟨x, hx, hne⟩ := (checkIntegerArrayAttr_eq_false_iff n).mp h3n
                  obtain ⟨v, hv⟩ := hnv n rfl x hx
                  exact (hne v hv).elim
          · rw [if_neg h3]
            constructor
            · intro _
              refine ⟨⟨l, rfl⟩, ?_, ?_, ?_⟩
              · intro l2 hl2 a ha
                injection hl2 with he
                subst he
                by_contra hna
                have hbad : hasNonIntElems l = true :=
                  (hasNonIntElems_eq_true_iff l).mpr ⟨a, ha, hna⟩
                rw [h1f] at hbad
                cases hbad
              · intro m hm a ha
                cases ti with
                | none => cases hm
                | some m2 =>
                    injection hm with he
                    by_contra hna
                    apply h2
                    show hasNonIntElems m2 = true
                    exact (hasNonIntElems_eq_true_iff m2).mpr ⟨a, he.symm ▸ ha, hna⟩
              · intro n hn x hx
                cases nv with
                | none => cases hn
                | some n2 =>
                    injection hn with he
                    have h3n : checkIntegerArrayAttr n2 = true := by
                      cases hh : checkIntegerArrayAttr n2
                      · exact absurd (show ((!checkIntegerArrayAttr n2) = true) from
                          by rw [hh]; rfl) h3
                      · rfl
                    exact (checkIntegerArrayAttr_eq_true_iff n2).mp h3n x (he.symm ▸ hx)
            · intro _; rfl

/-- C4: `LoweringConfig` validation fails iff `tileSizes` is absent, or some
level entry of `tileSizes` is not itself a flat sequence of integers, or
`tileInterchange` is present and some of its level entries is not a flat
sequence of integers, or `nativeVectorSize` is present and contains a
non-integer; and an empty `tileSizes` sequence (with the other fields absent,
hence well-formed) is accepted. -/
theorem claim4_lowering_config_verify_fails_iff :
    (∀ (ts ti nv : Option (List Attr)),
       (∃ e, LoweringConfigAttr.verify ts ti nv = .error e) ↔
         (ts = none ∨
          (∃ l, ts = some l ∧ ∃ a ∈ l, ¬ specFlatIntSeq a) ∨
          (∃ m, ti = some m ∧ ∃ a ∈ m, ¬ specFlatIntSeq a) ∨
          (∃ n, nv = some n ∧ ∃ x ∈ n, ∀ v, x ≠ Attr.int v))) ∧
    LoweringConfigAttr.verify (some []) none none = .ok () := by
  constructor
  · intro ts ti nv
    rw [exists_error_iff_ne_ok, Ne, loweringConfig_verify_ok_iff]
    constructor
    · intro h
      by_cases hts : ts = none
      · exact Or.inl hts
      · obtain ⟨l, hl⟩ := Option.ne_none_iff_exists'.mp hts
        right
        by_cases hA : ∀ a ∈ l, specFlatIntSeq a
        · by_cases hB : ∀ m, ti = some m → ∀ a ∈ m, specFlatIntSeq a
          · right; right
            by_cases hC : ∀ n, nv = some n → ∀ x ∈ n, ∃ v, x = Attr.int v
            · refine absurd ⟨⟨l, hl⟩, ?_, hB, hC⟩ h
              intro l2 hl2 a ha
              rw [hl] at hl2
              injection hl2 with he
              exact hA a (he.symm ▸ ha)
            · push_neg at hC
              exact hC
          · push_neg at hB
            right; left
            exact hB
        · push_neg at hA
          left
          exact ⟨l, hl, hA⟩
    · rintro (h | h | h | h) ⟨⟨l, hl⟩, hA, hB, hC⟩
      · rw [h] at hl; cases hl
      · obtain ⟨l2, hl2, a, ha, hna⟩ := h
        exact hna (hA l2 hl2 a ha)
      · obtain ⟨m, hm, a, ha, hna⟩ := h
        exact hna (hB m hm a ha)
      · obtain ⟨n, hn, x, hx, hne⟩ := h
        obtain ⟨v, hv⟩ := hC n hn x hx
        exact hne v hv
  · rfl

/-- C4 witness: the failure characterization applied with all fields absent. -/
theorem claim4_witness :
    ∃ e, LoweringConfigAttr.verify none none none = .error e :=
  (claim4_lowering_config_verify_fails_iff.1 none none none).mpr (Or.inl rfl)

/-- C5: `TranslationInfo` validation fails with `MissingField` when the
pipeline is absent, succeeds exactly for the values of the enumerated set of
known pipeline kinds (up to and including the highest kind, `None`), and fails
with `InvalidEnumValue` for every value outside the set. -/
theorem claim5_pipeline_membership :
    (∀ wl, TranslationInfoAttr.verify none wl = .error .missingPipeline) ∧
    (∀ v wl, TranslationInfoAttr.verify (some v) wl = .ok () ↔ v ∈ knownPipelineKinds) ∧
    (∀ v wl, v ∉ knownPipelineKinds →
       TranslationInfoAttr.verify (some v) wl = .error .invalidEnumValue) ∧
    (∀ wl, TranslationInfoAttr.verify (some DispatchLoweringPassPipeline_None) wl =
       .ok ()) := by
  refine ⟨fun wl => rfl, ?_, ?_, fun wl => rfl⟩
  · intro v wl
    simp only [TranslationInfoAttr.verify, knownPipelineKinds, List.mem_range]
    by_cases h : DispatchLoweringPassPipeline_None < v
    · rw [if_pos h]
      constructor
      · intro hcon; exact absurd hcon (by simp)
      · intro hlt; omega
    · rw [if_neg h]
      constructor
      · intro _; omega
      · intro _; rfl
  · intro v wl hv
    simp only [knownPipelineKinds, List.mem_range] at hv
    simp only [TranslationInfoAttr.verify]
    rw [if_pos (by omega)]

/-- C5 witness: the first value past `None` is rejected as an invalid enum
value. -/
theorem claim5_witness :
    TranslationInfoAttr.verify (some (DispatchLoweringPassPipeline_None + 1)) none =
      .error .invalidEnumValue :=
  claim5_pipeline_membership.2.2.1 (DispatchLoweringPassPipeline_None + 1) none (by decide)

/-- C6: decoding after encoding is the identity on every finite sequence of
64-bit integers (including the empty one), and decoding an absent attribute
yields the empty sequence. -/
theorem claim6_codec_roundtrip :
    (∀ s : List Int, (∀ x ∈ s, -(2 ^ 63) ≤ x ∧ x < 2 ^ 63) →
       getIntegerVals (some (getI64IntegerArrayAttr s)) = s) ∧
    getIntegerVals none = [] :=
  ⟨getIntegerVals_getI64, rfl⟩

/-- C6 witness: the round trip at a concrete sequence. -/
theorem claim6_witness :
    getIntegerVals (some (getI64IntegerArrayAttr [4, -7, 0])) = [4, -7, 0] :=
  claim6_codec_roundtrip.1 [4, -7, 0] (by decide)

/-- C7: `tileSizesAt` and `interchangeAt` return the empty sequence whenever
the field is absent or the level is at or beyond the number of configured
levels (both are total functions, so no error is possible), and return the
level's decoded sequence for every in-range level. -/
theorem claim7_level_accessors :
    (∀ (c : LoweringConfigAttr) (level : Nat),
       (c.tileSizes = none ∨ ∃ l, c.tileSizes = some l ∧ l.length ≤ level) →
       c.getTileSizeVals level = []) ∧
    (∀ (c : LoweringConfigAttr) (level : Nat),
       (c.tileInterchange = none ∨ ∃ l, c.tileInterchange = some l ∧ l.length ≤ level) →
       c.getTileInterchangeVals level = []) ∧
    (∀ (c : LoweringConfigAttr) (l : List Attr) (level : Nat),
       c.tileSizes = some l → level < l.length →
       c.getTileSizeVals level =
         getIntegerVals (some ((l.getD level Attr.other).asArrayAttr))) ∧
    (∀ (c : LoweringConfigAttr) (l : List Attr) (level : Nat),
       c.tileInterchange = some l → level < l.length →
       c.getTileInterchangeVals level =
         getIntegerVals (some ((l.getD level Attr.other).asArrayAttr))) := by
  refine ⟨?_, ?_, ?_, ?_⟩
  · intro c level h
    obtain ⟨ts, ti, nv⟩ := c
    rcases h with h | ⟨l, hl, hlen⟩
    · have h2 : ts = none := h
      subst h2
      rfl
    · have h2 : ts = some l := hl
      subst h2
      show (if l.length ≤ level then []
            else getIntegerVals (some ((l.getD level Attr.other).asArrayAttr))) = []
      rw [if_pos hlen]
  · intro c level h
    obtain ⟨ts, ti, nv⟩ := c
    rcases h with h | ⟨l, hl, hlen⟩
    · have h2 : ti = none := h
      subst h2
      rfl
    · have h2 : ti = some l := hl
      subst h2
      show (if l.length ≤ level then []
            else getIntegerVals (some ((l.getD level Attr.other).asArrayAttr))) = []
      rw [if_pos hlen]
  · intro c l level hl hlen
    obtain ⟨ts, ti, nv⟩ := c
    have h2 : ts = some l := hl
    subst h2
    show (if l.length ≤ level then []
          else getIntegerVals (some ((l.getD level Attr.other).asArrayAttr))) = _
    rw [if_neg (by omega)]
  · intro c l level hl hlen
    obtain ⟨ts, ti, nv⟩ := c
    have h2 : ti = some l := hl
    subst h2
    show (if l.length ≤ level then []
          else getIntegerVals (some ((l.getD level Attr.other).asArrayAttr))) = _
    rw [if_neg (by omega)]

/-- C7 witness: probing level 3 of a config with no tile-size levels. -/
theorem claim7_witness :
    LoweringConfigAttr.getTileSizeVals ⟨none, none, none⟩ 3 = [] :=
  claim7_level_accessors.1 ⟨none, none, none⟩ 3 (Or.inl rfl)

/-- C8: `resolve` returns the empty plan with no error on the empty node
sequence, and likewise on any sequence in which no node has both the
partitionable-loops capability and an attached `LoweringConfig` — such nodes
are skipped and contribute nothing. -/
theorem claim8_empty_or_skipped_nodes_yield_empty_plan :
    getDistributionTileConfigFromLoweringConfig [] = .ok ([], []) ∧
    (∀ l : List ComputeOp,
       (∀ op ∈ l, op.partitionableLoops = none ∨ op.loweringConfig = none) →
       getDistributionTileConfigFromLoweringConfig l = .ok ([], [])) := by
  refine ⟨rfl, ?_⟩
  intro l h
  cases l with
  | nil => rfl
  | cons b t =>
      simp only [getDistributionTileConfigFromLoweringConfig]
      refine resolveGo_ok_of_all_eq b (b :: t) [] [] (fun p hp => ?_)
      have hc : contribs (b :: t) = [] :=
        List.filterMap_eq_nil_iff.mpr (fun op hop => contribPair_eq_none op (h op hop))
      rw [hc] at hp
      cases hp

/-- C8 witness: scenario A, two nodes both lacking the capability. -/
theorem claim8_witness :
    getDistributionTileConfigFromLoweringConfig
      [⟨none, some (LoweringConfigAttr.get [[4]] [] [])⟩, ⟨none, none⟩] = .ok ([], []) :=
  claim8_empty_or_skipped_nodes_yield_empty_plan.2
    [⟨none, some (LoweringConfigAttr.get [[4]] [] [])⟩, ⟨none, none⟩]
    (by
      intro op hop
      rcases List.mem_cons.mp hop with h | h
      · subst h; exact Or.inl rfl
      · rcases List.mem_cons.mp h with h2 | h2
        · subst h2; exact Or.inl rfl
        · cases h2)

/-- C9: the resolver's outcome — the returned plan and whether it fails —
depends only on each node's level-0 tile sizes, level-0 interchange and
partitionable loops: two node sequences agreeing pairwise on those values
(`agreeOn`) but arbitrary at tiling levels 1 and beyond and in
`nativeVectorSize` produce the same result. -/
theorem claim9_outcome_depends_only_on_level0_data :
    ∀ (l1 l2 : List ComputeOp), List.Forall₂ agreeOn l1 l2 →
      resolveOutcome l1 = resolveOutcome l2 := by
  intro l1 l2 hf
  have hf2 : List.Forall₂ (fun o1 o2 => contribPair o1 = contribPair o2) l1 l2 :=
    hf.imp (fun o1 o2 h => contribPair_congr o1 o2 h)
  cases hf2 with
  | nil => rfl
  | @cons o1 o2 t1 t2 h12 hrest =>
      unfold resolveOutcome
      simp only [getDistributionTileConfigFromLoweringConfig]
      exact resolveGo_outcome_congr o1 o2 (o1 :: t1) (o2 :: t2)
        (List.Forall₂.cons h12 hrest) [] []

/-- C9 witness: two singleton sequences whose nodes agree at level 0 but
differ at level 1 and in `nativeVectorSize`. -/
theorem claim9_witness :
    resolveOutcome [⟨some [0], some (LoweringConfigAttr.get [[4], [9]] [[0], [1]] [])⟩] =
      resolveOutcome [⟨some [0], some (LoweringConfigAttr.get [[4]] [[0]] [7])⟩] :=
  claim9_outcome_depends_only_on_level0_data _ _
    (List.Forall₂.cons ⟨rfl, rfl, rfl⟩ List.Forall₂.nil)

/-- C10: every constructor of `TranslationInfo`, `LoweringConfig` and
`CompilationInfo` encodes each optional integer-sequence argument
(`workloadPerWorkgroup`, `workgroupSize`, `nativeVectorSize`, `interchange`)
as a present — possibly empty — encoded list, never as an absent field, and
the accessors return exactly the sequence passed in; hence for values built
through these constructors the absent-versus-empty distinction is
unobservable. -/
theorem claim10_constructors_encode_optional_lists_as_present :
    (∀ p wl, (TranslationInfoAttr.get p wl).passPipeline = some p ∧
       (TranslationInfoAttr.get p wl).workloadPerWorkgroup =
         some (getI64IntegerArrayAttr wl)) ∧
    (∀ ts ti nv, (LoweringConfigAttr.get ts ti nv).tileSizes.isSome = true ∧
       (LoweringConfigAttr.get ts ti nv).tileInterchange.isSome = true ∧
       (LoweringConfigAttr.get ts ti nv).nativeVectorSize.isSome = true) ∧
    (∀ ts ti nv wg,
       (CompilationInfoAttr.getDefaultPipeline ts ti nv wg).loweringConfig.isSome = true ∧
       (CompilationInfoAttr.getDefaultPipeline ts ti nv wg).translationInfo.isSome = true ∧
       (CompilationInfoAttr.getDefaultPipeline ts ti nv wg).workgroupSize =
         some (getI64IntegerArrayAttr wg)) ∧
    (∀ ts ti nv pp wpw wg,
       (CompilationInfoAttr.getFull ts ti nv pp wpw wg).loweringConfig.isSome = true ∧
       (CompilationInfoAttr.getFull ts ti nv pp wpw wg).translationInfo.isSome = true ∧
       (CompilationInfoAttr.getFull ts ti nv pp wpw wg).workgroupSize =
         some (getI64IntegerArrayAttr wg)) ∧
    (∀ cfg tinfo wg,
       (CompilationInfoAttr.getFromParts cfg tinfo wg).loweringConfig = some cfg ∧
       (CompilationInfoAttr.getFromParts cfg tinfo wg).translationInfo = some tinfo ∧
       (CompilationInfoAttr.getFromParts cfg tinfo wg).workgroupSize =
         some (getI64IntegerArrayAttr wg)) ∧
    (∀ cfg tinfo wg, (∀ x ∈ wg, -(2 ^ 63) ≤ x ∧ x < 2 ^ 63) →
       (CompilationInfoAttr.getFromParts cfg tinfo wg).getWorkgroupSizeVals = wg) ∧
    (∀ p wl, (∀ x ∈ wl, -(2 ^ 63) ≤ x ∧ x < 2 ^ 63) →
       (TranslationInfoAttr.get p wl).getWorkloadPerWorkgroupVals = wl) ∧
    (∀ ts ti nv, (∀ x ∈ nv, -(2 ^ 63) ≤ x ∧ x < 2 ^ 63) →
       (LoweringConfigAttr.get ts ti nv).getNativeVectorSizeVals = nv) := by
  refine ⟨fun p wl => ⟨rfl, rfl⟩, fun ts ti nv => ⟨rfl, rfl, rfl⟩,
    fun ts ti nv wg => ⟨rfl, rfl, rfl⟩, fun ts ti nv pp wpw wg => ⟨rfl, rfl, rfl⟩,
    fun cfg tinfo wg => ⟨rfl, rfl, rfl⟩, ?_, ?_, ?_⟩
  · intro cfg tinfo wg h
    exact getIntegerVals_getI64 wg h
  · intro p wl h
    exact getIntegerVals_getI64 wl h
  · intro ts ti nv h
    exact getIntegerVals_getI64 nv h

/-- C10 witness: a workgroup size passed through the third constructor is read
back unchanged. -/
theorem claim10_witness :
    (CompilationInfoAttr.getFromParts ⟨some [], some [], some []⟩
       ⟨some 0, some []⟩ [8, 8, 1]).getWorkgroupSizeVals = [8, 8, 1] :=
  claim10_constructors_encode_optional_lists_as_present.2.2.2.2.2.1
    ⟨some [], some [], some []⟩ ⟨some 0, some []⟩ [8, 8, 1] (by decide)
